import Mathlib

/-!
Verification of the VL-TV bridge level-clustering, labeling, symbol-translation
and fetch/draw coordination logic (src/firefox/background.js), shallowly embedded
in Lean 4.

JS numbers are modelled as exact rationals (ℚ).  To keep every definition
kernel-computable (so concrete runs can be settled by `decide`), rational
arithmetic is expressed through `mkRat`/`Rat.divInt`; bridge lemmas prove each
operation equal to the corresponding Mathlib field operation on ℚ.
JS strings are modelled as `List Char`.
-/

/-- Computable rational addition; equals `a + b` (see `qadd_eq`). -/
def qadd (a b : ℚ) : ℚ := mkRat (a.num * b.den + b.num * a.den) (a.den * b.den)

/-- Computable rational subtraction; equals `a - b` (see `qsub_eq`). -/
def qsub (a b : ℚ) : ℚ := mkRat (a.num * b.den - b.num * a.den) (a.den * b.den)

/-- Computable rational multiplication; equals `a * b` (see `qmul_eq`). -/
def qmul (a b : ℚ) : ℚ := mkRat (a.num * b.num) (a.den * b.den)

/-- Computable rational division; equals `a / b` (see `qdiv_eq`). -/
def qdiv (a b : ℚ) : ℚ := qmul a (Rat.divInt b.den b.num)

theorem qadd_eq (a b : ℚ) : qadd a b = a + b := (Rat.add_def' a b).symm

theorem qsub_eq (a b : ℚ) : qsub a b = a - b := (Rat.sub_def' a b).symm

theorem qmul_eq (a b : ℚ) : qmul a b = a * b := by
  rw [Rat.mul_def, Rat.normalize_eq_mkRat]; rfl

theorem qdiv_eq (a b : ℚ) : qdiv a b = a / b := by
  rw [qdiv, qmul_eq, Rat.div_def, Rat.inv_def]

/-- JS `Math.max` over a nonempty list of numbers (`Math.max(...xs)`).
The `[]` case never occurs at any call site below (JS would give `-Infinity`);
its value here is an arbitrary placeholder. -/
def listMaxQ : List ℚ → ℚ
  | [] => 0
  | p :: ps => ps.foldl max p

/-- JS `Math.min` over a nonempty list of numbers (`Math.min(...xs)`). -/
def listMinQ : List ℚ → ℚ
  | [] => 0
  | p :: ps => ps.foldl min p

theorem listMaxQ_mem : ∀ (ps : List ℚ), ps ≠ [] → listMaxQ ps ∈ ps := by
  intro ps hne
  match ps with
  | p :: ps =>
    show List.foldl max p ps ∈ p :: ps
    clear hne
    induction ps generalizing p with
    | nil => simp [List.foldl]
    | cons q ps ih =>
      simp only [List.foldl]
      rcases List.mem_cons.mp (ih (max p q)) with h | h
      · rcases max_choice p q with hm | hm <;> simp [h.trans hm]
      · simp [h]

theorem le_listMaxQ : ∀ (ps : List ℚ), ∀ x ∈ ps, x ≤ listMaxQ ps := by
  intro ps
  match ps with
  | [] => simp
  | p :: ps =>
    show ∀ x ∈ p :: ps, x ≤ List.foldl max p ps
    induction ps generalizing p with
    | nil => simp
    | cons q ps ih =>
      intro x hx
      simp only [List.mem_cons] at hx
      rcases hx with rfl | rfl | hx
      · exact le_trans (le_max_left x q) (ih (max x q) _ (by simp))
      · exact le_trans (le_max_right p x) (ih (max p x) _ (by simp))
      · exact ih (max p q) x (by simp [hx])

theorem listMinQ_mem : ∀ (ps : List ℚ), ps ≠ [] → listMinQ ps ∈ ps := by
  intro ps hne
  match ps with
  | p :: ps =>
    show List.foldl min p ps ∈ p :: ps
    clear hne
    induction ps generalizing p with
    | nil => simp [List.foldl]
    | cons q ps ih =>
      simp only [List.foldl]
      rcases List.mem_cons.mp (ih (min p q)) with h | h
      · rcases min_choice p q with hm | hm <;> simp [h.trans hm]
      · simp [h]

theorem listMinQ_le : ∀ (ps : List ℚ), ∀ x ∈ ps, listMinQ ps ≤ x := by
  intro ps
  match ps with
  | [] => simp
  | p :: ps =>
    show ∀ x ∈ p :: ps, List.foldl min p ps ≤ x
    induction ps generalizing p with
    | nil => simp
    | cons q ps ih =>
      intro x hx
      simp only [List.mem_cons] at hx
      rcases hx with rfl | rfl | hx
      · exact le_trans (ih (min x q) _ (by simp)) (min_le_left x q)
      · exact le_trans (ih (min p x) _ (by simp)) (min_le_right p x)
      · exact ih (min p q) x (by simp [hx])

/-! ## Data model

`Level` is the canonical record built at ingestion (`extractLevels`):
price, symbol, and the VL enrichment fields, all optional fields modelled
with `Option` (JS `undefined`). -/

structure Level where
  price : ℚ
  symbol : List Char := []
  rank : Option ℤ := none
  dollars : Option ℚ := none
  volume : Option ℚ := none
  trades : Option ℚ := none
  dates : Option (List Char) := none
  timestamp : ℤ := 0
  source : List Char := []
  deriving DecidableEq

/-- The `aggregated` object of a zone (`finalizeCluster`).  `rankRange` is
`[ranks[0], ranks[ranks.length-1]]`, or `none` for the JS `[null, null]`. -/
structure Aggregated where
  rankRange : Option (ℤ × ℤ)
  totalDollars : ℚ
  levelCount : ℕ
  avgDollars : ℚ
  deriving DecidableEq

/-- The zone object emitted by `finalizeCluster` for clusters of size ≥ 2. -/
structure ZoneData where
  highPrice : ℚ
  lowPrice : ℚ
  midPrice : ℚ
  levels : List Level
  aggregated : Aggregated
  deriving DecidableEq

/-- The items `clusterLevels` emits: a single level or a zone object. -/
inductive ClusterItem where
  | level (l : Level)
  | zone (z : ZoneData)
  deriving DecidableEq

/-! ## Clustering engine (`clusterLevels` / `finalizeCluster`) -/

/-- JS `levels.map(l => l.rank).filter(Boolean).sort((a,b) => a-b)`:
JS `filter(Boolean)` drops both absent ranks and rank `0` (falsy). -/
def ranksOf (levels : List Level) : List ℤ :=
  ((levels.filterMap (fun l => l.rank)).filter
      (fun r => !(r == 0))).mergeSort (fun a b => a ≤ b)

/-- JS `levels.reduce((sum, l) => sum + (l.dollars || 0), 0)`. -/
def sumDollars (levels : List Level) : ℚ :=
  levels.foldl (fun s l => qadd s (l.dollars.getD 0)) 0

/-- Source `finalizeCluster(levels)`: a cluster of size 1 becomes a `level` item;
anything else becomes a `zone` with aggregate statistics.  (`clusterLevels`
only ever calls this with a nonempty cluster.) -/
def finalizeCluster (levels : List Level) : ClusterItem :=
  match levels with
  | [l] => ClusterItem.level l
  | _ =>
    let prices := levels.map (fun l => l.price)
    let ranks := ranksOf levels
    let totalDollars := sumDollars levels
    let highPrice := listMaxQ prices
    let lowPrice := listMinQ prices
    ClusterItem.zone {
      highPrice := highPrice
      lowPrice := lowPrice
      midPrice := qdiv (qadd highPrice lowPrice) 2
      levels := levels
      aggregated := {
        rankRange :=
          match ranks with
          | [] => none
          | r :: rs => some (r, rs.getLastD r)
        totalDollars := totalDollars
        levelCount := levels.length
        avgDollars := qdiv totalDollars (mkRat levels.length 1)
      }
    }

/-- The maximum price of the current cluster:
`Math.max(...currentCluster.map(l => l.price))`. -/
def clusterHighOf (currentCluster : List Level) : ℚ :=
  listMaxQ (currentCluster.map (fun l => l.price))

/-- The walk of `clusterLevels` over the price-sorted tail: keep the current
cluster while each candidate is within the admission window of the running
cluster high, otherwise emit and restart. -/
def clusterWalk (thresholdPercent : ℚ) : List Level → List Level → List ClusterItem
  | currentCluster, [] => [finalizeCluster currentCluster]
  | currentCluster, level :: rest =>
    let clusterHigh := clusterHighOf currentCluster
    let threshold := qmul clusterHigh (qdiv thresholdPercent 100)
    if qsub level.price clusterHigh ≤ threshold then
      clusterWalk thresholdPercent (currentCluster ++ [level]) rest
    else
      finalizeCluster currentCluster :: clusterWalk thresholdPercent [level] rest

/-- The comparator `(a, b) => a.price - b.price` of the JS stable `Array.sort`,
as the `Bool`-valued `le` of the stable `List.mergeSort`. -/
def levelLe (a b : Level) : Bool := a.price ≤ b.price

/-- Source `clusterLevels(levels, thresholdPercent)`. -/
def clusterLevels (levels : List Level) (thresholdPercent : ℚ) : List ClusterItem :=
  if levels.isEmpty then []
  else if thresholdPercent ≤ 0 then
    levels.map ClusterItem.level
  else
    match levels.mergeSort levelLe with
    | [] => []
    | first :: rest => clusterWalk thresholdPercent [first] rest

/-- The member levels of an emitted item (a `level` item wraps one level,
a `zone` carries its `levels` array). -/
def members : ClusterItem → List Level
  | ClusterItem.level l => [l]
  | ClusterItem.zone z => z.levels

/-- Flattening the members of all emitted items. -/
def flattenItems (items : List ClusterItem) : List Level :=
  items.foldr (fun i acc => members i ++ acc) []

theorem members_finalizeCluster (c : List Level) : members (finalizeCluster c) = c := by
  match c with
  | [] => rfl
  | [l] => rfl
  | a :: b :: rest => rfl

theorem flattenItems_cons (i : ClusterItem) (items : List ClusterItem) :
    flattenItems (i :: items) = members i ++ flattenItems items := rfl

theorem flattenItems_map_level (ls : List Level) :
    flattenItems (ls.map ClusterItem.level) = ls := by
  induction ls with
  | nil => rfl
  | cons a ls ih =>
    show members (ClusterItem.level a) ++ flattenItems (ls.map ClusterItem.level) = a :: ls
    rw [ih]; rfl

theorem flattenItems_clusterWalk (tp : ℚ) :
    ∀ (rest current : List Level),
      flattenItems (clusterWalk tp current rest) = current ++ rest := by
  intro rest
  induction rest with
  | nil =>
    intro current
    show flattenItems [finalizeCluster current] = current ++ []
    rw [flattenItems_cons, members_finalizeCluster]
    simp [flattenItems]
  | cons l rest ih =>
    intro current
    rw [clusterWalk]
    split
    · rw [ih]; simp
    · rw [flattenItems_cons, members_finalizeCluster, ih]; simp

/-- C1.  Partition property: flattening the members of all items returned by
`clusterLevels` yields exactly the input multiset of levels, for every input
sequence and every threshold (including 0 and negative). -/
theorem clusterLevels_partition (levels : List Level) (tp : ℚ) :
    (flattenItems (clusterLevels levels tp)).Perm levels := by
  rw [clusterLevels]
  by_cases he : levels.isEmpty
  · rw [if_pos he]
    rw [List.isEmpty_iff.mp he]
    exact List.Perm.refl _
  · rw [if_neg he]
    by_cases ht : tp ≤ 0
    · rw [if_pos ht, flattenItems_map_level]
    · rw [if_neg ht]
      cases hm : levels.mergeSort levelLe with
      | nil =>
        have hp : levels.Perm [] := by
          have := List.mergeSort_perm levels levelLe
          rw [hm] at this
          exact this.symm
        rw [hp.eq_nil]
        exact List.Perm.refl _
      | cons first rest =>
        rw [flattenItems_clusterWalk]
        have hp : (first :: rest).Perm levels := by
          have := List.mergeSort_perm levels levelLe
          rw [hm] at this
          exact this
        simpa using hp

theorem clusterWalk_admission (tp : ℚ) (current : List Level) (lv : Level)
    (rest : List Level) :
    clusterWalk tp current (lv :: rest) =
      if lv.price - clusterHighOf current ≤ clusterHighOf current * tp / 100 then
        clusterWalk tp (current ++ [lv]) rest
      else
        finalizeCluster current :: clusterWalk tp [lv] rest := by
  rw [clusterWalk]
  have hcond :
      (qsub lv.price (clusterHighOf current) ≤ qmul (clusterHighOf current) (qdiv tp 100)) =
        (lv.price - clusterHighOf current ≤ clusterHighOf current * tp / 100) := by
    rw [qsub_eq, qmul_eq, qdiv_eq, mul_div_assoc]
  simp only [hcond]

unseal List.merge List.mergeSort in
/-- C2.  `clusterLevels` admits a candidate into the current cluster iff
`candidate.price - clusterHigh ≤ clusterHigh * thresholdPercent / 100`, where
`clusterHigh` is the running maximum of the current cluster; otherwise the
cluster is emitted and a new one starts with the candidate.  In particular,
prices `[100, 101, 102.5]` at threshold `1` produce a zone `{100, 101}`
followed by a single level `{102.5}`. -/
theorem clusterLevels_chaining :
    (∀ (tp : ℚ) (current : List Level) (lv : Level) (rest : List Level),
      clusterWalk tp current (lv :: rest) =
        if lv.price - clusterHighOf current ≤ clusterHighOf current * tp / 100 then
          clusterWalk tp (current ++ [lv]) rest
        else
          finalizeCluster current :: clusterWalk tp [lv] rest) ∧
    clusterLevels [{ price := 100 }, { price := 101 }, { price := mkRat 205 2 }] 1 =
      [ClusterItem.zone {
          highPrice := 101
          lowPrice := 100
          midPrice := mkRat 201 2
          levels := [{ price := 100 }, { price := 101 }]
          aggregated := {
            rankRange := none
            totalDollars := 0
            levelCount := 2
            avgDollars := 0 } },
        ClusterItem.level { price := mkRat 205 2 }] :=
  ⟨fun tp current lv rest => clusterWalk_admission tp current lv rest, by decide⟩

/-- C5.  With threshold ≤ 0, `clusterLevels` returns one `level` item per input
level, in the original as-encountered order (the input is not sorted); the
empty input yields the empty output for every threshold. -/
theorem clusterLevels_threshold_nonpos (levels : List Level) (tp : ℚ) :
    (tp ≤ 0 → clusterLevels levels tp = levels.map ClusterItem.level) ∧
    clusterLevels [] tp = [] := by
  constructor
  · intro h
    rw [clusterLevels]
    by_cases he : levels.isEmpty
    · rw [if_pos he, List.isEmpty_iff.mp he]
      rfl
    · rw [if_neg he, if_pos h]
  · rfl

/-- Witness for C5 at a concrete input: threshold `0` with two unsorted levels
yields one `level` item each, in the original order. -/
theorem clusterLevels_threshold_nonpos_witness :
    clusterLevels [{ price := 7 }, { price := 3 }] 0 =
      [ClusterItem.level { price := 7 }, ClusterItem.level { price := 3 }] :=
  (clusterLevels_threshold_nonpos [{ price := 7 }, { price := 3 }] 0).1 (le_refl 0)

theorem sumDollars_eq (ls : List Level) :
    sumDollars ls = (ls.map (fun l => l.dollars.getD 0)).sum := by
  have h : ∀ (init : ℚ), ls.foldl (fun s l => qadd s (l.dollars.getD 0)) init
      = init + (ls.map (fun l => l.dollars.getD 0)).sum := by
    induction ls with
    | nil => intro init; simp
    | cons a ls ih =>
      intro init
      rw [List.foldl_cons, ih, qadd_eq, List.map_cons, List.sum_cons, add_assoc]
  simpa [sumDollars] using h 0

theorem mkRat_natCast_one (n : ℕ) : mkRat (n : ℤ) 1 = (n : ℚ) := by
  rw [Rat.mkRat_one]
  push_cast
  rfl

theorem finalizeCluster_zone (a b : Level) (r : List Level) :
    finalizeCluster (a :: b :: r) = ClusterItem.zone {
      highPrice := listMaxQ ((a :: b :: r).map fun l => l.price)
      lowPrice := listMinQ ((a :: b :: r).map fun l => l.price)
      midPrice := qdiv (qadd (listMaxQ ((a :: b :: r).map fun l => l.price))
        (listMinQ ((a :: b :: r).map fun l => l.price))) 2
      levels := a :: b :: r
      aggregated := {
        rankRange :=
          match ranksOf (a :: b :: r) with
          | [] => none
          | r0 :: rs => some (r0, rs.getLastD r0)
        totalDollars := sumDollars (a :: b :: r)
        levelCount := (a :: b :: r).length
        avgDollars := qdiv (sumDollars (a :: b :: r)) (mkRat (a :: b :: r).length 1) } } := rfl

theorem clusterWalk_items (tp : ℚ) :
    ∀ (rest current : List Level), current ≠ [] →
      ∀ item ∈ clusterWalk tp current rest,
        ∃ c, c ≠ [] ∧ item = finalizeCluster c := by
  intro rest
  induction rest with
  | nil =>
    intro current hc item hitem
    rw [clusterWalk] at hitem
    simp only [List.mem_singleton] at hitem
    exact ⟨current, hc, hitem⟩
  | cons l rest ih =>
    intro current hc item hitem
    rw [clusterWalk] at hitem
    split at hitem
    · exact ih (current ++ [l]) (by simp) item hitem
    · rcases List.mem_cons.mp hitem with rfl | h
      · exact ⟨current, hc, rfl⟩
      · exact ih [l] (by simp) item h

/-- The spec-side properties a `zone` item must satisfy (C4): at least two
member levels, price extremes attained among members, midpoint as arithmetic
mean, dollar total as a sum with absent treated as 0, and average as
total over member count. -/
def zoneInvariant (z : ZoneData) : Prop :=
  2 ≤ z.levels.length ∧
  z.highPrice ∈ z.levels.map (fun l => l.price) ∧
  (∀ l ∈ z.levels, l.price ≤ z.highPrice) ∧
  z.lowPrice ∈ z.levels.map (fun l => l.price) ∧
  (∀ l ∈ z.levels, z.lowPrice ≤ l.price) ∧
  z.midPrice = (z.highPrice + z.lowPrice) / 2 ∧
  z.aggregated.totalDollars = (z.levels.map (fun l => l.dollars.getD 0)).sum ∧
  z.aggregated.levelCount = z.levels.length ∧
  z.aggregated.avgDollars = z.aggregated.totalDollars / (z.levels.length : ℚ)

theorem finalizeCluster_zoneInvariant :
    ∀ (c : List Level) (z : ZoneData), c ≠ [] →
      finalizeCluster c = ClusterItem.zone z → zoneInvariant z := by
  intro c z hc hz
  match c with
  | [l] => exact absurd hz (by simp [finalizeCluster])
  | a :: b :: r =>
    rw [finalizeCluster_zone] at hz
    injection hz with h
    subst h
    refine ⟨by simp, ?_, ?_, ?_, ?_, ?_, ?_, rfl, ?_⟩
    · exact listMaxQ_mem _ (by simp)
    · intro l hl
      exact le_listMaxQ _ _ (List.mem_map_of_mem _ hl)
    · exact listMinQ_mem _ (by simp)
    · intro l hl
      exact listMinQ_le _ _ (List.mem_map_of_mem _ hl)
    · simp only [qdiv_eq, qadd_eq]
    · simp [sumDollars_eq]
    · simp [qdiv_eq, mkRat_natCast_one]

/-- C4.  Every item emitted by `clusterLevels`: a cluster of size 1 always
becomes a `level` item wrapping exactly that level (never a zone), and every
emitted `zone` has ≥ 2 member levels, `highPrice`/`lowPrice` equal to the
member price extremes, `midPrice = (highPrice + lowPrice) / 2`, `totalDollars`
the sum of member dollars with absent treated as 0, and
`avgDollars = totalDollars / levelCount`. -/
theorem clusterItems_invariants :
    (∀ l : Level, finalizeCluster [l] = ClusterItem.level l) ∧
    (∀ (levels : List Level) (tp : ℚ) (z : ZoneData),
      ClusterItem.zone z ∈ clusterLevels levels tp → zoneInvariant z) := by
  constructor
  · intro l; rfl
  · intro levels tp z hmem
    rw [clusterLevels] at hmem
    by_cases he : levels.isEmpty
    · rw [if_pos he] at hmem
      simp at hmem
    · rw [if_neg he] at hmem
      by_cases ht : tp ≤ 0
      · rw [if_pos ht] at hmem
        simp only [List.mem_map] at hmem
        rcases hmem with ⟨l, _, h⟩
        exact absurd h (by simp)
      · rw [if_neg ht] at hmem
        cases hm : levels.mergeSort levelLe with
        | nil =>
          rw [hm] at hmem
          simp at hmem
        | cons first rest =>
          rw [hm] at hmem
          rcases clusterWalk_items tp rest [first] (by simp) _ hmem with ⟨c, hc, heq⟩
          exact finalizeCluster_zoneInvariant c z hc heq.symm

unseal List.merge List.mergeSort in
/-- Witness for C4 at a concrete input: the zone produced by clustering
prices `[100, 101]` at threshold `1` satisfies all the zone invariants. -/
theorem clusterItems_invariants_witness :
    zoneInvariant {
      highPrice := 101
      lowPrice := 100
      midPrice := mkRat 201 2
      levels := [{ price := 100 }, { price := 101 }]
      aggregated := {
        rankRange := none
        totalDollars := 0
        levelCount := 2
        avgDollars := 0 } } :=
  clusterItems_invariants.2 [{ price := 100 }, { price := 101 }] 1 _ (by decide)

/-! ## Label formatter (`formatDollars` / `formatLevelLabel` / `formatZoneLabel`) -/

/-- Decimal digits of a natural number, as JS renders integers in templates. -/
def natChars (n : ℕ) : List Char := Nat.toDigits 10 n

/-- Decimal rendering of an integer (JS `${i}` for integral numbers). -/
def intChars (i : ℤ) : List Char :=
  if i < 0 then '-' :: natChars i.natAbs else natChars i.natAbs

/-- Floor of a rational, computably (`num.fdiv den`). -/
def qfloor (q : ℚ) : ℤ := Int.fdiv q.num q.den

/-- Left-pad a digit string with zeros up to `digits` characters. -/
def leftPadZeros (digits : ℕ) (s : List Char) : List Char :=
  List.replicate (digits - s.length) '0' ++ s

/-- ECMAScript `Number.prototype.toFixed(digits)` for `x ≥ 0`: the integer `n`
for which `n / 10^digits` is closest to `x` (larger `n` on ties, i.e. round
half up), rendered with a decimal point when `digits > 0`. -/
def toFixedDigits (digits : ℕ) (x : ℚ) : List Char :=
  let n := (qfloor (qadd (qmul x (mkRat (10 ^ digits) 1)) (mkRat 1 2))).toNat
  if digits = 0 then natChars n
  else natChars (n / 10 ^ digits) ++ '.' :: leftPadZeros digits (natChars (n % 10 ^ digits))

/-- ECMAScript `toFixed` including the sign split of the spec. -/
def toFixedQ (digits : ℕ) (x : ℚ) : List Char :=
  if x < 0 then '-' :: toFixedDigits digits (qsub 0 x) else toFixedDigits digits x

/-- Source `formatDollars(amount)`: one-decimal billions, integer millions/thousands,
else integer dollars. -/
def formatDollars (amount : ℚ) : List Char :=
  if amount ≥ 1000000000 then '$' :: (toFixedQ 1 (qdiv amount 1000000000) ++ ['B'])
  else if amount ≥ 1000000 then '$' :: (toFixedQ 0 (qdiv amount 1000000) ++ ['M'])
  else if amount ≥ 1000 then '$' :: (toFixedQ 0 (qdiv amount 1000) ++ ['K'])
  else '$' :: toFixedQ 0 amount

/-- Source `formatLevelLabel(level)`: `"VL"`, then `#<rank>` if rank is truthy,
then `formatDollars(dollars)` if dollars is truthy, joined by spaces.
JS truthiness makes a present rank or dollars of `0` behave like absent. -/
def formatLevelLabel (level : Level) : List Char :=
  let parts : List (List Char) := ["VL".data]
  let parts := parts ++
    (match level.rank with
     | some r => if r = 0 then [] else ['#' :: intChars r]
     | none => [])
  let parts := parts ++
    (match level.dollars with
     | some d => if d = 0 then [] else [formatDollars d]
     | none => [])
  List.intercalate [' '] parts

/-- Source `formatZoneLabel(zone)`: `"VL"`, then `#<lo>` or `#<lo>-<hi>` from
`aggregated.rankRange` when present, then `formatDollars(totalDollars)` when
positive, joined by spaces. -/
def formatZoneLabel (z : ZoneData) : List Char :=
  let a := z.aggregated
  let parts : List (List Char) := ["VL".data]
  let parts := parts ++
    (match a.rankRange with
     | none => []
     | some (r0, r1) =>
       if r0 = r1 then ['#' :: intChars r0]
       else ['#' :: (intChars r0 ++ '-' :: intChars r1)])
  let parts := parts ++
    (if a.totalDollars > 0 then [formatDollars a.totalDollars] else [])
  List.intercalate [' '] parts

/-- Whether `hay` contains `needle` as a contiguous substring. -/
def containsTok (hay needle : List Char) : Bool :=
  (List.range (hay.length + 1)).any (fun i => List.isPrefixOf needle (hay.drop i))

/-- The label of a `zone` item (`none` for a `level` item). -/
def zoneLabelOf : ClusterItem → Option (List Char)
  | ClusterItem.zone z => some (formatZoneLabel z)
  | ClusterItem.level _ => none

unseal List.merge List.mergeSort in
/-- C3 counterexample: the engine clusters member levels with non-null ranks
`[9, 7, 10]` and dollars totalling `2900000000` into a zone whose label is
`"VL #7-10 $2.9B"` — it contains `"$2.9B"` but does **not** contain the
comma-joined rank list `"#7,9,10"` the claim asserts. -/
theorem formatZoneLabel_rank_list_counterexample :
    zoneLabelOf (finalizeCluster [
        { price := 10, rank := some 9, dollars := some 1000000000 },
        { price := 11, rank := some 7, dollars := some 900000000 },
        { price := 12, rank := some 10, dollars := some 1000000000 }]) =
      some ("VL #7-10 $2.9B".data) ∧
    containsTok ("VL #7-10 $2.9B".data) ("#7,9,10".data) = false ∧
    containsTok ("VL #7-10 $2.9B".data) ("$2.9B".data) = true := by
  decide

theorem formatZoneLabel_of_fields (z : ZoneData)
    (h1 : z.aggregated.rankRange = some (7, 10))
    (h2 : z.aggregated.totalDollars = 2900000000) :
    formatZoneLabel z = "VL #7-10 $2.9B".data := by
  simp only [formatZoneLabel, h1, h2]
  decide

/-- C3 amended.  For every cluster of ≥ 2 member levels whose non-null,
non-zero ranks are `[9, 7, 10]` in any order and whose dollars total
`2900000000`, the label of the emitted zone is `"VL #7-10 $2.9B"`: it contains the
token `#7-10` (lowest rank, hyphen, highest rank) and the token `$2.9B`,
regardless of the order the ranks appear in the input. -/
theorem formatZoneLabel_rank_range (ls : List Level)
    (h2 : 2 ≤ ls.length)
    (hr : ((ls.filterMap (fun l => l.rank)).filter (fun r => !(r == 0))).Perm [9, 7, 10])
    (hd : sumDollars ls = 2900000000) :
    zoneLabelOf (finalizeCluster ls) = some ("VL #7-10 $2.9B".data) ∧
    containsTok ("VL #7-10 $2.9B".data) ("#7-10".data) = true ∧
    containsTok ("VL #7-10 $2.9B".data) ("$2.9B".data) = true := by
  refine ⟨?_, by decide, by decide⟩
  have hranks : ranksOf ls = [7, 9, 10] := by
    have hperm : (ranksOf ls).Perm [7, 9, 10] := by
      refine (List.mergeSort_perm _ _).trans (hr.trans ?_)
      decide
    have hsorted : List.Sorted (· ≤ ·) (ranksOf ls) := by
      have := @List.sorted_mergeSort ℤ
        (fun a b : ℤ => decide (a ≤ b))
        (fun a b c hab hbc => by
          simp only [decide_eq_true_eq] at *
          omega)
        (fun a b => by
          simp only [Bool.or_eq_true, decide_eq_true_eq]
          omega)
        ((ls.filterMap (fun l => l.rank)).filter (fun r => !(r == 0)))
      refine this.imp ?_
      intro a b h
      simpa using h
    exact List.eq_of_perm_of_sorted hperm hsorted (by decide)
  match ls, h2 with
  | a :: b :: r, _ =>
    rw [finalizeCluster_zone]
    show some (formatZoneLabel _) = _
    rw [formatZoneLabel_of_fields]
    · show (match ranksOf (a :: b :: r) with
        | [] => none
        | r0 :: rs => some (r0, rs.getLastD r0)) = some (7, 10)
      rw [hranks]
      decide
    · exact hd

unseal List.merge List.mergeSort in
/-- Witness for the amended C3 at a concrete input with ranks appearing in the
order `9, 7, 10`. -/
theorem formatZoneLabel_rank_range_witness :
    zoneLabelOf (finalizeCluster [
        { price := 10, rank := some 9, dollars := some 1450000000 },
        { price := 11, rank := some 7, dollars := none },
        { price := 12, rank := some 10, dollars := some 1450000000 }]) =
      some ("VL #7-10 $2.9B".data) ∧
    containsTok ("VL #7-10 $2.9B".data) ("#7-10".data) = true ∧
    containsTok ("VL #7-10 $2.9B".data) ("$2.9B".data) = true :=
  formatZoneLabel_rank_range [
      { price := 10, rank := some 9, dollars := some 1450000000 },
      { price := 11, rank := some 7, dollars := none },
      { price := 12, rank := some 10, dollars := some 1450000000 }]
    (by decide) (by decide) (by decide)

/-! ## Symbol normalizer (`tvToVl` / `vlToTv`) -/

/-- JS `toUpperCase` on the ASCII tickers involved. -/
def jsUpper (s : List Char) : List Char := s.map Char.toUpper

/-- JS `trim`. -/
def jsTrim (s : List Char) : List Char :=
  ((s.dropWhile Char.isWhitespace).reverse.dropWhile Char.isWhitespace).reverse

/-- The static TV→VL exception table; empty in the source. -/
def TV_TO_VL_MAP : List (List Char × List Char) := []

/-- The static VL→TV reverse-exception table. -/
def VL_TO_TV_MAP : List (List Char × List Char) :=
  [("BRKA".data, "BRK.A".data), ("BRKB".data, "BRK.B".data)]

/-- Country/exchange suffixes stripped by `tvToVl`. -/
def COUNTRY_SUFFIXES : List (List Char) :=
  [".US".data, ".UK".data, ".DE".data, ".FR".data, ".JP".data, ".HK".data,
    ".AU".data, ".CA".data]

/-- Object-key lookup (`MAP[ticker]`, used under a truthiness test). -/
def lookupMap (m : List (List Char × List Char)) (k : List Char) :
    Option (List Char) :=
  (m.find? (fun p => p.1 == k)).map (fun p => p.2)

/-- JS `if (ticker.includes(":")) ticker = ticker.split(":").pop()`. -/
def afterColon (t : List Char) : List Char :=
  if t.contains ':' then (t.reverse.takeWhile (fun c => !(c == ':'))).reverse else t

def isUpperAlpha (c : Char) : Bool := 'A' ≤ c && c ≤ 'Z'

/-- The share-class regex `^([A-Z]+)\.([A-Z])$` of `tvToVl`: splits
`BASE.X` into `(BASE, X)` when it matches. -/
def shareClassSplit (t : List Char) : Option (List Char × Char) :=
  match t.reverse with
  | c :: '.' :: baseRev =>
    if isUpperAlpha c && !baseRev.isEmpty && baseRev.all isUpperAlpha then
      some (baseRev.reverse, c)
    else none
  | _ => none

/-- The first matching country suffix is stripped (`slice(0, -len)`, `break`). -/
def stripCountrySuffix (t : List Char) : List Char :=
  match COUNTRY_SUFFIXES.find? (fun suf => List.isSuffixOf suf t) with
  | some suf => t.take (t.length - suf.length)
  | none => t

/-- Source `tvToVl(tvTicker)`: `null` for falsy input; else uppercase+trim, drop the
exchange-prefix segment, consult the static map, strip one country suffix,
collapse `BASE.X` into `BASEX`. -/
def tvToVl (tvTicker : List Char) : Option (List Char) :=
  if tvTicker.isEmpty then none
  else
    let t1 := jsTrim (jsUpper tvTicker)
    let t2 := afterColon t1
    match lookupMap TV_TO_VL_MAP t2 with
    | some v => some v
    | none =>
      let t3 := stripCountrySuffix t2
      match shareClassSplit t3 with
      | some (base, c) => some (base ++ [c])
      | none => some t3

/-- Source `vlToTv(vlTicker)`: `null` for falsy input; else uppercase+trim and
consult the static reverse table only, otherwise return unchanged. -/
def vlToTv (vlTicker : List Char) : Option (List Char) :=
  if vlTicker.isEmpty then none
  else
    let t := jsTrim (jsUpper vlTicker)
    match lookupMap VL_TO_TV_MAP t with
    | some v => some v
    | none => some t

/-- C9.  The symbol translation is intentionally asymmetric:
`tvToVl "BRK.B" = "BRKB"`; `vlToTv "BRKB" = "BRK.B"` exactly because `BRKB`
is a key of the static reverse table; any ticker whose uppercased, trimmed
form is not a key of the table is returned unchanged by `vlToTv`; and the
round trip fails for a generic share-class ticker (`XYZ.C ↦ XYZC ↦ XYZC`). -/
theorem symbol_translation_asymmetric :
    tvToVl ("BRK.B".data) = some ("BRKB".data) ∧
    vlToTv ("BRKB".data) = some ("BRK.B".data) ∧
    lookupMap VL_TO_TV_MAP ("BRKB".data) = some ("BRK.B".data) ∧
    (∀ s : List Char, s.isEmpty = false →
      lookupMap VL_TO_TV_MAP (jsTrim (jsUpper s)) = none →
      vlToTv s = some (jsTrim (jsUpper s))) ∧
    tvToVl ("XYZ.C".data) = some ("XYZC".data) ∧
    vlToTv ("XYZC".data) = some ("XYZC".data) ∧
    ("XYZC".data : List Char) ≠ "XYZ.C".data := by
  refine ⟨by decide, by decide, by decide, ?_, by decide, by decide, by decide⟩
  intro s hne hlk
  simp [vlToTv, hlk, hne]

/-- Witness for C9 at a concrete unseen ticker: `vlToTv "GOOG" = "GOOG"`. -/
theorem symbol_translation_asymmetric_witness :
    vlToTv ("GOOG".data) = some ("GOOG".data) :=
  symbol_translation_asymmetric.2.2.2.1 ("GOOG".data) (by decide) (by decide)

/-! ## Fetch ingestion (`extractLevels`) and the level cache -/

/-- The `tradeLevels` map (symbol → stored levels), total with default `[]`
(the code initialises a missing key to `[]` before reading it). -/
abbrev Store := List Char → List Level

/-- JS `a || b` on two optional numbers: `0` (and absence) falls through. -/
def jsOrQ : Option ℚ → Option ℚ → Option ℚ
  | some v, y => if v = 0 then y else some v
  | none, y => y

/-- JS `a || b` on two optional integers. -/
def jsOrZ : Option ℤ → Option ℤ → Option ℤ
  | some v, y => if v = 0 then y else some v
  | none, y => y

/-- JS `a || b` on two optional strings: the empty string falls through. -/
def jsOrS : Option (List Char) → Option (List Char) → Option (List Char)
  | some v, y => if v.isEmpty then y else some v
  | none, y => y

/-- One upstream response row, with the field-name variants `extractLevels`
probes (`Ticker`/`ticker`/`symbol`, `Price`/`price`/`level`/`tradeLevel`, …). -/
structure Row where
  Ticker : Option (List Char) := none
  ticker : Option (List Char) := none
  symbol : Option (List Char) := none
  Price : Option ℚ := none
  price : Option ℚ := none
  level : Option ℚ := none
  tradeLevel : Option ℚ := none
  TradeLevelRank : Option ℤ := none
  rank : Option ℤ := none
  Dollars : Option ℚ := none
  dollars : Option ℚ := none
  Volume : Option ℚ := none
  volume : Option ℚ := none
  Trades : Option ℚ := none
  trades : Option ℚ := none
  Dates : Option (List Char) := none
  dates : Option (List Char) := none
  deriving DecidableEq

/-- The body of the `for (const item of items)` loop of `extractLevels`:
resolve symbol and price through the truthiness chains, skip rows without a
truthy numeric price, and append a new `Level` unless one with the same price
is already stored for that symbol.  `urlSymbol` abstracts
`extractSymbolFromUrl(url)`, which depends only on `url`. -/
def ingestRow (url : List Char) (urlSymbol : Option (List Char)) (now : ℤ)
    (st : Store) (item : Row) : Store :=
  let symbol := jsUpper ((jsOrS item.Ticker (jsOrS item.ticker (jsOrS item.symbol
      (jsOrS urlSymbol (some ("UNKNOWN".data)))))).getD ("UNKNOWN".data))
  match jsOrQ item.Price (jsOrQ item.price (jsOrQ item.level item.tradeLevel)) with
  | none => st
  | some price =>
    if price = 0 then st
    else
      let lvl : Level := {
        price := price
        symbol := symbol
        rank := jsOrZ item.TradeLevelRank item.rank
        dollars := jsOrQ item.Dollars item.dollars
        volume := jsOrQ item.Volume item.volume
        trades := jsOrQ item.Trades item.trades
        dates := jsOrS item.Dates item.dates
        timestamp := now
        source := url }
      let existing := st symbol
      if existing.any (fun l => decide (l.price = price)) then st
      else fun k => if k = symbol then existing ++ [lvl] else st k

/-- Source `extractLevels(url, items)` acting on the `tradeLevels` store. -/
def extractLevels (url : List Char) (urlSymbol : Option (List Char)) (now : ℤ)
    (store : Store) (items : List Row) : Store :=
  items.foldl (ingestRow url urlSymbol now) store

/-- No two stored levels share a price (exact equality). -/
def distinctPrices (ls : List Level) : Prop :=
  ls.Pairwise (fun a b => a.price ≠ b.price)

theorem ingestRow_inv (url : List Char) (urlSymbol : Option (List Char))
    (now : ℤ) (st : Store) (item : Row)
    (h : ∀ s, distinctPrices (st s)) :
    ∀ s, distinctPrices (ingestRow url urlSymbol now st item s) := by
  intro s
  rw [ingestRow]
  cases hp : jsOrQ item.Price (jsOrQ item.price (jsOrQ item.level item.tradeLevel)) with
  | none => exact h s
  | some price =>
    dsimp only
    split
    · exact h s
    · split
      · exact h s
      · rename_i hany
        dsimp only
        split
        · rename_i hs
          rw [distinctPrices, List.pairwise_append]
          refine ⟨h _, by simp [distinctPrices], ?_⟩
          intro a ha b hb
          simp only [List.mem_singleton] at hb
          subst hb
          intro hcontra
          exact hany (List.any_eq_true.mpr ⟨a, ha, by simpa using hcontra⟩)
        · exact h s

theorem extractLevels_inv (url : List Char) (urlSymbol : Option (List Char))
    (now : ℤ) :
    ∀ (items : List Row) (store : Store),
      (∀ s, distinctPrices (store s)) →
      ∀ s, distinctPrices (extractLevels url urlSymbol now store items s) := by
  intro items
  induction items with
  | nil => intro store h s; exact h s
  | cons item items ih =>
    intro store h s
    exact ih (ingestRow url urlSymbol now store item)
      (ingestRow_inv url urlSymbol now store item h) s

/-- The concrete duplicate row of the C8 test (VL shape: `Ticker`/`Price`). -/
def crdoRow : Row :=
  { Ticker := some ("CRDO".data), Price := some (mkRat 1509 10),
    Dollars := some 1629675136, Volume := some 10803273, Trades := some 60,
    TradeLevelRank := some 1 }

/-- The single level stored after ingesting `crdoRow` (twice). -/
def crdoLevel : Level :=
  { price := mkRat 1509 10, symbol := "CRDO".data, rank := some 1,
    dollars := some 1629675136, volume := some 10803273, trades := some 60,
    dates := none, timestamp := 0, source := "u".data }

/-- C8.  Ingestion never stores two levels with the same price for one symbol:
the invariant is preserved by `extractLevels` from any duplicate-free store,
and feeding two rows with identical `(symbol, price)` to an empty store
stores exactly one level. -/
theorem extractLevels_no_duplicate_prices :
    (∀ (url : List Char) (urlSymbol : Option (List Char)) (now : ℤ)
        (store : Store) (items : List Row),
      (∀ s, distinctPrices (store s)) →
      ∀ s, distinctPrices (extractLevels url urlSymbol now store items s)) ∧
    extractLevels ("u".data) none 0 (fun _ => []) [crdoRow, crdoRow]
      ("CRDO".data) = [crdoLevel] :=
  ⟨fun url urlSymbol now store items h s =>
      extractLevels_inv url urlSymbol now items store h s,
    by decide⟩

/-- Witness for C8 at a concrete input: ingesting the duplicate pair into the
empty store leaves the stored list duplicate-free. -/
theorem extractLevels_no_duplicate_prices_witness :
    distinctPrices (extractLevels ("u".data) none 0 (fun _ => [])
      [crdoRow, crdoRow] ("CRDO".data)) :=
  extractLevels_no_duplicate_prices.1 ("u".data) none 0 (fun _ => [])
    [crdoRow, crdoRow] (fun _ => List.Pairwise.nil) ("CRDO".data)

/-- The cache effect of `fetchVlLevels` after a successful HTTP response with
rows `rows`: zero rows return early (`tradeLevels` untouched); otherwise the
entry of the ticker is deleted and the rows ingested under
`direct-fetch:<TICKER>` (whose `extractSymbolFromUrl` is the ticker itself).
The ticker is uppercased on entry to `fetchVlLevels`. -/
def fetchVlLevelsStore (ticker : List Char) (now : ℤ) (rows : List Row)
    (store : Store) : Store :=
  let tickerU := jsUpper ticker
  if rows.isEmpty then store
  else
    extractLevels ("direct-fetch:".data ++ tickerU) (some tickerU) now
      (fun k => if k = tickerU then [] else store k) rows

/-- C10.  A successful fetch with zero rows leaves the previously cached
levels unchanged for every ticker; the cache entry is deleted and replaced
only when at least one row is present. -/
theorem fetchVlLevels_cache_frame (ticker : List Char) (now : ℤ)
    (rows : List Row) (store : Store) :
    (rows = [] → fetchVlLevelsStore ticker now rows store = store) ∧
    (rows ≠ [] → fetchVlLevelsStore ticker now rows store =
      extractLevels ("direct-fetch:".data ++ jsUpper ticker)
        (some (jsUpper ticker)) now
        (fun k => if k = jsUpper ticker then [] else store k) rows) := by
  constructor
  · intro h
    subst h
    rfl
  · intro h
    have he : rows.isEmpty = false := by
      simpa [List.isEmpty_iff] using h
    simp [fetchVlLevelsStore, he]

/-- Witness for C10 at a concrete input: a zero-row response leaves a
one-entry cache exactly as it was. -/
theorem fetchVlLevels_cache_frame_witness :
    fetchVlLevelsStore ("CRDO".data) 0 []
        (fun _ => [{ price := 5 }]) = (fun _ => [{ price := 5 }]) :=
  (fetchVlLevels_cache_frame ("CRDO".data) 0 [] (fun _ => [{ price := 5 }])).1 rfl

/-! ## Annotation coordinator (`fetchAndDraw`)

The external effects are parameters: `fetchOutcome` is what `fetchVlLevels`
did (threw, or returned a result object); `host` is `browser.tabs.sendMessage`
to the target tab (resolves with an opaque payload or rejects); the two
settings are the stored `clusteringEnabled` / `clusterThreshold` values.  The
second component of the return value records every `DRAW_LEVELS` message sent
to the host. -/

abbrev HostResponse := List Char

/-- The object `fetchVlLevels` resolves with. -/
structure FetchLevelsResult where
  success : Bool
  ticker : List Char
  levels : List Level
  count : Option ℕ := none
  message : Option (List Char) := none
  deriving DecidableEq

/-- The caller-supplied `drawOptions` (all fields optional). -/
structure DrawOptionsIn where
  color : Option (List Char) := none
  width : Option ℚ := none
  style : Option ℚ := none
  deriving DecidableEq

/-- The `DRAW_LEVELS` message sent to the tab: labeled items plus resolved
style options. -/
structure DrawMessage where
  levels : List (ClusterItem × List Char)
  color : List Char
  width : ℚ
  style : ℚ
  deriving DecidableEq

/-- Shape of `drawResult` on the returned object: the response of the host, or
`{ success: false, error }` built in the `catch` branch. -/
inductive DrawOutcome where
  | response (r : HostResponse)
  | failed (error : List Char)
  deriving DecidableEq

/-- The `error` field of a `drawResult` (`none` on the success shape). -/
def drawOutcomeError : DrawOutcome → Option (List Char)
  | DrawOutcome.response _ => none
  | DrawOutcome.failed e => some e

/-- The object `fetchAndDraw` resolves with: the spread of the fetch result,
plus `drawResult` / `clustered` / `clusterCount` when drawing was attempted. -/
structure FetchDrawResult where
  fetch : FetchLevelsResult
  drawResult : Option DrawOutcome := none
  clustered : Option Bool := none
  clusterCount : Option ℕ := none
  deriving DecidableEq

def isZoneItem : ClusterItem → Bool
  | ClusterItem.zone _ => true
  | ClusterItem.level _ => false

/-- JS `item.type === "zone" ? formatZoneLabel(item) : formatLevelLabel(item)`. -/
def labelOfItem : ClusterItem → List Char
  | ClusterItem.zone z => formatZoneLabel z
  | ClusterItem.level l => formatLevelLabel l

/-- Source `fetchAndDraw(symbol, tabId, drawOptions)` (lines 498-560): propagate a
fetch throw; return the fetch result unmodified when it was unsuccessful,
empty, or no tab was given; otherwise cluster (per settings), label, send one
`DRAW_LEVELS` message, and attach the response of the host — or, when the host
rejects, attach `{ success: false, error }` without raising. -/
def fetchAndDraw (fetchOutcome : Except (List Char) FetchLevelsResult)
    (tabId : Option ℤ)
    (clusteringEnabledSetting : Option Bool)
    (clusterThresholdSetting : Option ℚ)
    (host : DrawMessage → Except (List Char) HostResponse)
    (drawOptions : DrawOptionsIn) :
    Except (List Char) FetchDrawResult × List DrawMessage :=
  match fetchOutcome with
  | Except.error e => (Except.error e, [])
  | Except.ok fetchResult =>
    if !fetchResult.success || fetchResult.levels.length == 0 then
      (Except.ok { fetch := fetchResult }, [])
    else
      match tabId with
      | none => (Except.ok { fetch := fetchResult }, [])
      | some _ =>
        let clusteringEnabled := clusteringEnabledSetting != some false
        let threshold := clusterThresholdSetting.getD 1
        let drawables :=
          if clusteringEnabled && decide (threshold > 0) then
            clusterLevels fetchResult.levels threshold
          else
            fetchResult.levels.map ClusterItem.level
        let withLabels := drawables.map (fun item => (item, labelOfItem item))
        let msg : DrawMessage := {
          levels := withLabels
          color := (jsOrS drawOptions.color (some ("#02A9DE".data))).getD ("#02A9DE".data)
          width := (jsOrQ drawOptions.width (some 2)).getD 2
          style := (jsOrQ drawOptions.style (some 0)).getD 0 }
        match host msg with
        | Except.ok resp =>
          (Except.ok {
              fetch := fetchResult
              drawResult := some (DrawOutcome.response resp)
              clustered := some clusteringEnabled
              clusterCount := some ((drawables.filter isZoneItem).length) },
            [msg])
        | Except.error err =>
          (Except.ok {
              fetch := fetchResult
              drawResult := some (DrawOutcome.failed err) },
            [msg])

/-- C6.  When the host rejects the draw, `fetchAndDraw` does not raise: it
returns the originally fetched result unmodified with
`drawResult = { success: false, error }` attached, whose error is non-null. -/
theorem fetchAndDraw_render_failure (fetchResult : FetchLevelsResult)
    (t : ℤ) (ce : Option Bool) (ct : Option ℚ) (em : List Char)
    (opts : DrawOptionsIn)
    (hs : fetchResult.success = true) (hne : fetchResult.levels ≠ []) :
    (fetchAndDraw (Except.ok fetchResult) (some t) ce ct
        (fun _ => Except.error em) opts).1 =
      Except.ok { fetch := fetchResult
                  drawResult := some (DrawOutcome.failed em) } ∧
    drawOutcomeError (DrawOutcome.failed em) = some em := by
  refine ⟨?_, rfl⟩
  have hlen : (fetchResult.levels.length == 0) = false := by
    simpa using hne
  simp [fetchAndDraw, hs, hlen]

/-- Witness for C6 at a concrete input: a one-level successful fetch with a
rejecting host keeps the fetched level and attaches the error. -/
theorem fetchAndDraw_render_failure_witness :
    (fetchAndDraw
        (Except.ok { success := true, ticker := "A".data, levels := [{ price := 5 }] })
        (some 1) none none (fun _ => Except.error ("boom".data)) {}).1 =
      Except.ok {
          fetch := { success := true, ticker := "A".data, levels := [{ price := 5 }] }
          drawResult := some (DrawOutcome.failed ("boom".data)) } ∧
    drawOutcomeError (DrawOutcome.failed ("boom".data)) = some ("boom".data) :=
  fetchAndDraw_render_failure
    { success := true, ticker := "A".data, levels := [{ price := 5 }] }
    1 none none ("boom".data) {} rfl (by decide)

/-- C7.  A failed fetch propagates immediately, and a fetch with zero levels
returns the fetch result directly; in both cases no `DRAW_LEVELS` message is
ever sent to the charting host (the message log is empty). -/
theorem fetchAndDraw_no_draw_without_levels
    (e : List Char) (fetchResult : FetchLevelsResult) (tabId : Option ℤ)
    (ce : Option Bool) (ct : Option ℚ)
    (host : DrawMessage → Except (List Char) HostResponse)
    (opts : DrawOptionsIn) :
    fetchAndDraw (Except.error e) tabId ce ct host opts = (Except.error e, []) ∧
    (fetchResult.levels = [] →
      fetchAndDraw (Except.ok fetchResult) tabId ce ct host opts =
        (Except.ok { fetch := fetchResult }, [])) := by
  constructor
  · rfl
  · intro h
    have hlen : (fetchResult.levels.length == 0) = true := by
      simp [h]
    simp [fetchAndDraw, hlen]

/-- Witness for C7 at a concrete input: a successful fetch with zero levels
returns immediately and sends nothing to the host. -/
theorem fetchAndDraw_no_draw_without_levels_witness :
    fetchAndDraw
        (Except.ok { success := true, ticker := "A".data, levels := [] })
        (some 1) none none (fun _ => Except.ok []) {} =
      (Except.ok { fetch := { success := true, ticker := "A".data, levels := [] } }, []) :=
  (fetchAndDraw_no_draw_without_levels ("x".data)
      { success := true, ticker := "A".data, levels := [] }
      (some 1) none none (fun _ => Except.ok []) {}).2 rfl
